import Mathlib

/-!
Verification of the schema-less streaming protobuf tokenizer of
`protobuf-inspector-rs` against its natural-language specification.

The development shallowly embeds the Rust sources:
  * `example-parser.rs` (streaming tokenizer, strict classifier) in namespace `EP`;
  * `src/core.rs` (schema-side varint primitives) in namespace `Core`;
  * `src/guesser.rs` (relaxed classifier) in namespace `Guesser`.
Bytes are modelled as `Nat` (values below 256 in every real execution);
64-bit wrap-around is made explicit with `% 2 ^ 64`.  Rust loops are embedded
as structurally recursive functions on an explicit iteration bound; every
bound is chosen so that the zero case is unreachable (each bound is justified
at its definition), keeping the embedding executable by kernel reduction.
-/

deriving instance DecidableEq for Except

/-- Modelled from the spec: the byte-cursor abstraction `reader::DataReader`
(its source is not part of this repository; `example-parser.rs` shows its shape
in a comment, and spec section 6 gives the contract: `current_position`,
`remaining_count`, `at_end`, `read_one_byte`, `read_n_bytes`, `peek_n_bytes`,
`skip_n_bytes`, `seek_to`; `peek`/`read` fail atomically with no partial
advance).  A failed `skip` leaves the cursor in place; the caller then reads
`remains()` to compute the shortfall `n - bytes_actually_skipped` of spec
sections 6 and 8 (section 9 leaves the exact arithmetic of a failed skip open,
and this reading is the one consistent with `Error::Eof(n - reader.remains())`
at the call sites in `example-parser.rs`). -/
structure DataReader where
  input : List Nat
  cursor : Nat
deriving Repr, DecidableEq

def DataReader.new (data : List Nat) : DataReader := ⟨data, 0⟩

def DataReader.position (r : DataReader) : Nat := r.cursor

def DataReader.remains (r : DataReader) : Nat := r.input.length - r.cursor

def DataReader.eof (r : DataReader) : Bool := r.input.length ≤ r.cursor

def DataReader.read1 (r : DataReader) : Except Unit (Nat × DataReader) :=
  match r.input.drop r.cursor with
  | [] => .error ()
  | b :: _ => .ok (b, ⟨r.input, r.cursor + 1⟩)

def DataReader.peek (r : DataReader) (n : Nat) : Except Unit (List Nat) :=
  if n ≤ r.remains then .ok ((r.input.drop r.cursor).take n) else .error ()

def DataReader.read (r : DataReader) (n : Nat) : Except Unit (List Nat × DataReader) :=
  if n ≤ r.remains then .ok ((r.input.drop r.cursor).take n, ⟨r.input, r.cursor + n⟩)
  else .error ()

def DataReader.skip (r : DataReader) (n : Nat) : Except Unit DataReader :=
  if n ≤ r.remains then .ok ⟨r.input, r.cursor + n⟩ else .error ()

def DataReader.seek (r : DataReader) (p : Nat) : Except Unit DataReader :=
  if p ≤ r.input.length then .ok ⟨r.input, p⟩ else .error ()

namespace EP

/-- `Error` of `example-parser.rs`: `VarintEof`, `Eof(usize)`, `InvalidData`. -/
inductive Error where
  | varintEof : Error
  | eof : Nat → Error
  | invalidData : Error
deriving Repr, DecidableEq

/-- `WireType` of `example-parser.rs`. -/
inductive WireType where
  | varint | sixtyFourBit | chunk | startGroup | endGroup | thirtyTwoBit
deriving Repr, DecidableEq

/-- `impl TryFrom<u8> for WireType`. -/
def WireType.tryFrom : Nat → Except Unit WireType
  | 0 => .ok .varint
  | 1 => .ok .sixtyFourBit
  | 2 => .ok .chunk
  | 3 => .ok .startGroup
  | 4 => .ok .endGroup
  | 5 => .ok .thirtyTwoBit
  | _ => .error ()

/-- `TaggedData` of `example-parser.rs`. -/
inductive TaggedData where
  | chunkMetadata : Nat → TaggedData
  | others : TaggedData
deriving Repr, DecidableEq

/-- The loop of `read_varint` in `example-parser.rs`.  `result` is the `u64`
accumulator (the shifted group is wrapped to 64 bits exactly as Rust's `u64`
shift discards high bits), `pos` counts consumed bytes.  The first argument
bounds the remaining iterations: the Rust loop runs at most `10 - pos` times
because `pos` increments each round and `pos == 10` aborts, so starting the
bound at `10 - pos` makes the zero case unreachable.  The reader is threaded
through errors exactly as Rust's `&mut` reference is. -/
def readVarintLoop : Nat → DataReader → Nat → Nat → Except Error Nat × DataReader
  | 0, r, _, _ => (.error .invalidData, r)
  | fuel + 1, r, result, pos =>
    match r.read1 with
    | .error _ => (.error .varintEof, r)
    | .ok (x, r1) =>
      let result1 := result ||| ((x &&& 127) <<< (pos * 7)) % 2 ^ 64
      if x &&& 128 == 0 then (.ok result1, r1)
      else if pos + 1 == 10 then (.error .invalidData, r1)
      else readVarintLoop fuel r1 result1 (pos + 1)

/-- `read_varint` of `example-parser.rs`. -/
def read_varint (r : DataReader) : Except Error Nat × DataReader :=
  readVarintLoop 10 r 0 0

/-- `read_tag` of `example-parser.rs`: reads a varint, splits it into
`(field_number, wire_type)`; the `try_into::<u32>()` failure, an invalid
wire-type code, field number `0` and the reserved range `[19000, 19999]` are
all `Error::InvalidData`. -/
def read_tag (r : DataReader) : Except Error (Nat × WireType) × DataReader :=
  match read_varint r with
  | (.error e, r1) => (.error e, r1)
  | (.ok tagVarint, r1) =>
    if tagVarint >>> 3 < 2 ^ 32 then
      match WireType.tryFrom (tagVarint &&& 7) with
      | .error _ => (.error .invalidData, r1)
      | .ok wt =>
        let fieldNumber := tagVarint >>> 3
        if fieldNumber = 0 ∨ (19000 ≤ fieldNumber ∧ fieldNumber ≤ 19999) then
          (.error .invalidData, r1)
        else (.ok (fieldNumber, wt), r1)
    else (.error .invalidData, r1)

/-- `read_tagged_data` of `example-parser.rs`. -/
def read_tagged_data (r : DataReader) : Except Error TaggedData × DataReader :=
  match read_tag r with
  | (.error e, r1) => (.error e, r1)
  | (.ok (_, wt), r1) =>
    match wt with
    | .startGroup => (.ok .others, r1)
    | .endGroup => (.ok .others, r1)
    | .varint =>
      match read_varint r1 with
      | (.error e, r2) => (.error e, r2)
      | (.ok _, r2) => (.ok .others, r2)
    | .thirtyTwoBit =>
      match r1.skip 4 with
      | .error _ => (.error (.eof (4 - r1.remains)), r1)
      | .ok r2 => (.ok .others, r2)
    | .sixtyFourBit =>
      match r1.skip 8 with
      | .error _ => (.error (.eof (8 - r1.remains)), r1)
      | .ok r2 => (.ok .others, r2)
    | .chunk =>
      match read_varint r1 with
      | (.error e, r2) => (.error e, r2)
      | (.ok length, r2) => (.ok (.chunkMetadata length), r2)

/-- `MessageContext` of `example-parser.rs`. -/
structure MessageContext where
  start : Nat
  length : Option Nat
deriving Repr, DecidableEq

def MessageContext.new (start : Nat) (length : Option Nat) : MessageContext :=
  ⟨start, length⟩

/-- `MessageContext::shift`.  Rust computes `length - self.start - extra_length`
on `usize`; the reachable states keep it non-negative and `Nat` subtraction
matches there. -/
def MessageContext.shift (m : MessageContext) (extraLength : Nat) : MessageContext :=
  { length := m.length.map (fun l => l - m.start - extraLength), start := 0 }

/-- `ParserContext` of `example-parser.rs`.  Rust stores the contexts in a
`Vec` with the root first and pushes/pops at the end; the list here keeps the
innermost context at the head, so `push` is `cons`, `pop` is `tail`, and the
root sits last. -/
structure ParserContext where
  messages : List MessageContext
  error : Option Error
deriving Repr, DecidableEq

/-- `ParserContext::prepare_for_next_slice`. -/
def ParserContext.prepare_for_next_slice (ctx : ParserContext) (remainLength : Nat)
    (currentError : Option Error) : ParserContext :=
  if ctx.error = some .invalidData then ctx
  else { messages := ctx.messages.map (fun m => m.shift remainLength), error := currentError }

/-- `ParserContext::new`: a single unbounded root context and no saved error. -/
def ParserContext.new : ParserContext :=
  { messages := [MessageContext.new 0 none], error := none }

/-- The `for _ in 0..3` loop of `guess_is_message` in `example-parser.rs`
(strict classifier).  The first argument is the loop counter (3 at entry);
`ctrl` and `weird` are `is_ctrl_char_found` and `weird_value_count`. -/
def guessLoop : Nat → Bool → Nat → DataReader → Except Error (Bool × Nat)
  | 0, ctrl, weird, _ => .ok (ctrl, weird)
  | count + 1, ctrl, weird, r =>
    match r.peek (min 4 r.remains) with
    | .error _ => .error .invalidData
    | .ok bytes =>
      let ctrl1 := ctrl || bytes.any (fun c => decide (c < 32) && c != 10)
      match read_tag r with
      | (.error e, _) => .error e
      | (.ok (_, wt), r1) =>
        match wt with
        | .startGroup => if r1.eof then .ok (ctrl1, weird) else guessLoop count ctrl1 weird r1
        | .endGroup => if r1.eof then .ok (ctrl1, weird) else guessLoop count ctrl1 weird r1
        | .thirtyTwoBit =>
          match r1.skip 4 with
          | .error _ => .error .invalidData
          | .ok r2 => if r2.eof then .ok (ctrl1, weird) else guessLoop count ctrl1 weird r2
        | .sixtyFourBit =>
          match r1.read 8 with
          | .error _ => .error .invalidData
          | .ok (data, r2) =>
            let weird1 := if data.getLast? = some 0 ∨ data.getLast? = some 255
              then weird else weird + 1
            if r2.eof then .ok (ctrl1, weird1) else guessLoop count ctrl1 weird1 r2
        | .chunk =>
          match read_varint r1 with
          | (.error e, _) => .error e
          | (.ok length, r2) =>
            let weird1 := if 100 < length ∨ length = 0 then weird + 1 else weird
            match r2.skip length with
            | .error _ => .error .invalidData
            | .ok r3 => if r3.eof then .ok (ctrl1, weird1) else guessLoop count ctrl1 weird1 r3
        | .varint =>
          match read_varint r1 with
          | (.error e, _) => .error e
          | (.ok _, r2) => if r2.eof then .ok (ctrl1, weird) else guessLoop count ctrl1 weird r2

/-- `guess_is_message` of `example-parser.rs` (strict classifier): probes up
to three fields, then accepts iff a control character other than a newline was
seen in a probed window and at most one value looked weird. -/
def guess_is_message (r : DataReader) : Except Error Bool :=
  (guessLoop 3 false 0 r).map (fun s => s.1 && decide (s.2 ≤ 1))

/-- The `while !reader.eof()` loop of `find_next_chunk` in
`example-parser.rs`.  The first argument bounds the iterations: every round
that continues has consumed at least the one tag byte `read_tagged_data`
starts with, so `remains + 1` at entry is never exhausted. -/
def findNextChunkLoop : Nat → DataReader → MessageContext → Except Error (Option Nat) × DataReader
  | 0, r, _ => (.error .invalidData, r)
  | fuel + 1, r, m =>
    if r.eof then (.ok none, r)
    else
      let bound : Except Error (Option Nat) × DataReader ⊕ Unit :=
        match m.length with
        | some messageLength =>
          if r.position - m.start = messageLength then .inl (.ok none, r)
          else if messageLength < r.position - m.start then .inl (.error .invalidData, r)
          else .inr ()
        | none => .inr ()
      match bound with
      | .inl out => out
      | .inr _ =>
        match read_tagged_data r with
        | (.error e, r1) => (.error e, r1)
        | (.ok (.chunkMetadata length), r1) => (.ok (some length), r1)
        | (.ok .others, r1) => findNextChunkLoop fuel r1 m

/-- `find_next_chunk` of `example-parser.rs`. -/
def find_next_chunk (r : DataReader) (m : MessageContext) :
    Except Error (Option Nat) × DataReader :=
  findNextChunkLoop (r.remains + 1) r m

/-- The `while !reader.eof()` loop of `read_next_token_raw` in
`example-parser.rs`.  The iteration bound is explicit (a descent pushes a
context after consuming tag bytes, a pop consumes none but shrinks the stack,
so the loop always terminates; callers pass a bound large enough for their
input).  Each arm mirrors one `match chunk_length` arm of the source,
including the early `None` returns of the `?` operator on `peek`/`skip`/`seek`
and the pop that happens even when the backtracking `read` fails. -/
def tokenLoop : Nat → DataReader → ParserContext → Option (List Nat) × DataReader × ParserContext
  | 0, r, ctx => (none, r, ctx)
  | fuel + 1, r, ctx =>
    if r.eof then (none, r, { ctx with error := some (.eof 0) })
    else
      match ctx.messages with
      | [] => (none, r, ctx)
      | m :: rest =>
        match find_next_chunk r m with
        | (.ok (some length), r1) =>
          match r1.peek length with
          | .error _ => (none, r1, ctx)
          | .ok chunk =>
            match guess_is_message (DataReader.new chunk) with
            | .ok true =>
              tokenLoop fuel r1
                { ctx with messages := MessageContext.new r1.position (some length) :: m :: rest }
            | _ =>
              match r1.skip length with
              | .error _ => (none, r1, ctx)
              | .ok r2 => (some chunk, r2, ctx)
        | (.ok none, r1) =>
          match m.length with
          | some _ => tokenLoop fuel r1 { ctx with messages := rest }
          | none =>
            let e := if r1.eof then none else some Error.invalidData
            (none, r1, ctx.prepare_for_next_slice r1.remains e)
        | (.error .invalidData, r1) =>
          match m.length with
          | some length =>
            match r1.seek m.start with
            | .error _ => (none, r1, ctx)
            | .ok r2 =>
              match r2.read length with
              | .error _ => (none, r2, { ctx with messages := rest })
              | .ok (data, r3) => (some data, r3, { ctx with messages := rest })
          | none => (none, r1, ctx.prepare_for_next_slice r1.remains (some .invalidData))
        | (.error e, r1) => (none, r1, ctx.prepare_for_next_slice r1.remains (some e))

/-- `read_next_token_raw` of `example-parser.rs`: resume from the persisted
error state, then run the extraction loop (`fuel` bounds its iterations). -/
def read_next_token_raw (fuel : Nat) (r : DataReader) (ctx : ParserContext) :
    Option (List Nat) × DataReader × ParserContext :=
  match ctx.error with
  | none => tokenLoop fuel r ctx
  | some .varintEof =>
    let r1 := (read_varint r).2
    tokenLoop fuel r1 { ctx with error := none }
  | some (.eof n) =>
    match r.skip n with
    | .ok r1 => tokenLoop fuel r1 { ctx with error := none }
    | .error _ =>
      (none, r, ctx.prepare_for_next_slice r.remains (some (.eof (n - r.remains))))
  | some .invalidData => (none, r, ctx)

/-- The caller's pull loop (`ProtobufParser::next_token` / the `Iterator`
impl): repeatedly call `read_next_token_raw` on one slice until it yields no
token, collecting the tokens and the context carried to the next slice.  The
first argument bounds the number of calls; the inner loop bound 100 covers
every input used in this development. -/
def runTokens : Nat → DataReader → ParserContext → List (List Nat) × ParserContext
  | 0, _, ctx => ([], ctx)
  | calls + 1, r, ctx =>
    match read_next_token_raw 100 r ctx with
    | (some t, r1, ctx1) =>
      let rec2 := runTokens calls r1 ctx1
      (t :: rec2.1, rec2.2)
    | (none, _, ctx1) => ([], ctx1)

end EP

namespace Core

/-- `Error` of `src/core.rs`. -/
inductive Error where
  | eof | invalidVarint | invalidWireType
deriving Repr, DecidableEq

/-- The loop of `read_varint` in `src/core.rs` (`pos` counts bits, stepping by
7; the shifted group wraps to 64 bits like Rust's `u64`).  Iteration bound 10:
the `pos >= 64` check aborts before an 11th byte can be read. -/
def readVarintLoop : Nat → DataReader → Nat → Nat → Except Error (Option (Nat × DataReader))
  | 0, _, _, _ => .error .invalidVarint
  | fuel + 1, r, result, pos =>
    match r.read1 with
    | .error _ => if pos = 0 then .ok none else .error .eof
    | .ok (b, r1) =>
      let result1 := result ||| ((b &&& 127) <<< pos) % 2 ^ 64
      if b &&& 128 == 0 then
        if b = 0 ∧ pos + 7 ≠ 7 then .error .invalidVarint else .ok (some (result1, r1))
      else if 64 ≤ pos + 7 then .error .invalidVarint
      else readVarintLoop fuel r1 result1 (pos + 7)

/-- `read_varint` of `src/core.rs`: `Ok(None)` on end of input before the
first byte, and a non-minimal final zero byte is `InvalidVarint`. -/
def read_varint (r : DataReader) : Except Error (Option (Nat × DataReader)) :=
  readVarintLoop 10 r 0 0

/-- `read_identifier` of `src/core.rs`: `(id >> 3) as u32` truncates. -/
def read_identifier (r : DataReader) : Except Error (Option ((Nat × Nat) × DataReader)) :=
  match read_varint r with
  | .error e => .error e
  | .ok none => .ok none
  | .ok (some (id, r1)) => .ok (some (((id >>> 3) % 2 ^ 32, id &&& 7), r1))

/-- The wire-type-0 loop of `read_value` in `src/core.rs`: collect bytes up to
and including the first byte with a clear continuation bit.  Iteration bound:
each round consumes a byte, so `remains + 1` at entry is never exhausted. -/
def readValueVarintLoop : Nat → DataReader → List Nat → Except Error (Option (List Nat × DataReader))
  | 0, _, _ => .error .eof
  | fuel + 1, r, buf =>
    match r.read1 with
    | .error _ => if buf.isEmpty then .ok none else .error .eof
    | .ok (b, r1) =>
      if b &&& 128 == 0 then .ok (some (buf ++ [b], r1))
      else readValueVarintLoop fuel r1 (buf ++ [b])

/-- `read_value` of `src/core.rs`: for wire type 2 it reads the length varint
and then the body, returning the body bytes; fixed-width reads that run out of
input yield `Ok(None)`. -/
def read_value (r : DataReader) (wireType : Nat) : Except Error (Option (List Nat × DataReader)) :=
  match wireType with
  | 0 => readValueVarintLoop (r.remains + 1) r []
  | 1 =>
    match r.read 8 with
    | .ok (buf, r1) => .ok (some (buf, r1))
    | .error _ => .ok none
  | 2 =>
    match read_varint r with
    | .error e => .error e
    | .ok none => .ok none
    | .ok (some (length, r1)) =>
      match r1.read length with
      | .ok (buf, r2) => .ok (some (buf, r2))
      | .error _ => .ok none
  | 3 => .ok (some ([3], r))
  | 4 => .ok (some ([4], r))
  | 5 =>
    match r.read 4 with
    | .ok (buf, r1) => .ok (some (buf, r1))
    | .error _ => .ok none
  | _ => .error .invalidWireType

/-- The loop body of `parse_varint_bytes` in `src/core.rs`, structurally on
the buffer; falling off the end of the buffer is `InvalidVarint`. -/
def parseVarintBytesAux : List Nat → Nat → Nat → Except Error Nat
  | [], _, _ => .error .invalidVarint
  | b :: bs, result, pos =>
    let result1 := result ||| ((b &&& 127) <<< pos) % 2 ^ 64
    if b &&& 128 == 0 then
      if b = 0 ∧ pos + 7 ≠ 7 then .error .invalidVarint else .ok result1
    else if 64 ≤ pos + 7 then .error .invalidVarint
    else parseVarintBytesAux bs result1 (pos + 7)

/-- `parse_varint_bytes` of `src/core.rs`. -/
def parse_varint_bytes (buf : List Nat) : Except Error Nat :=
  parseVarintBytesAux buf 0 0

end Core

namespace Guesser

/-- `GuesserError` of `src/guesser.rs`. -/
inductive Error where
  | eof | invalidData
deriving Repr, DecidableEq

/-- The final verdict expression of `guess_is_message` in `src/guesser.rs`:
`valid_fields_found > 0 && weird_value_count <= 1`. -/
def verdict (weird fields : Nat) : Bool :=
  decide (0 < fields) && decide (weird ≤ 1)

/-- The `for _ in 0..3` loop of `guess_is_message` in `src/guesser.rs`
(relaxed classifier) over a cursor on `data`; `weird` and `fields` are
`weird_value_count` and `valid_fields_found`.  Any `core` error surfacing via
`?` becomes `InvalidData` (the `From` impl); `Ok(None)` from `read_value`
becomes `Eof`. -/
def guessLoop (data : List Nat) : Nat → DataReader → Nat → Nat → Except Error Bool
  | 0, _, weird, fields => .ok (verdict weird fields)
  | count + 1, r, weird, fields =>
    match Core.read_identifier r with
    | .error _ => .error .invalidData
    | .ok none => .ok (verdict weird fields)
    | .ok (some ((fieldNumber, wireType), r1)) =>
      if fieldNumber = 0 ∨ (19000 ≤ fieldNumber ∧ fieldNumber ≤ 19999) then .error .invalidData
      else
        let fields1 := fields + 1
        let next : Except Error (Nat × DataReader) :=
          match wireType with
          | 3 => .ok (weird, r1)
          | 4 => .ok (weird, r1)
          | 5 =>
            match Core.read_value r1 5 with
            | .ok (some (_, r2)) => .ok (weird, r2)
            | _ => .error .eof
          | 1 =>
            match Core.read_value r1 1 with
            | .ok (some (valueData, r2)) =>
              if valueData.getLast? = some 0 ∨ valueData.getLast? = some 255
              then .ok (weird, r2) else .ok (weird + 1, r2)
            | _ => .error .eof
          | 2 =>
            match Core.read_value r1 2 with
            | .ok (some (valueData, r2)) =>
              match Core.parse_varint_bytes valueData with
              | .error _ => .error .invalidData
              | .ok length =>
                let weird1 := if 500 < length ∨ length = 0 then weird + 1 else weird
                if data.length < r2.cursor + length then .error .eof
                else .ok (weird1, ⟨r2.input, r2.cursor + length⟩)
            | _ => .error .eof
          | 0 =>
            match Core.read_value r1 0 with
            | .ok (some (valueData, r2)) =>
              match Core.parse_varint_bytes valueData with
              | .error _ => .error .invalidData
              | .ok _ => .ok (weird, r2)
            | _ => .error .eof
          | _ => .error .invalidData
        match next with
        | .error e => .error e
        | .ok (weird1, r2) =>
          if data.length ≤ r2.cursor then .ok (verdict weird1 fields1)
          else guessLoop data count r2 weird1 fields1

/-- `guess_is_message` of `src/guesser.rs` (relaxed classifier). -/
def guess_is_message (data : List Nat) : Except Error Bool :=
  guessLoop data 3 (DataReader.new data) 0 0

end Guesser

section VarintEncoding

/-- Minimal little-endian base-128 encoding, on an iteration bound: the value
strictly decreases at each recursive call, so a bound above the value is never
exhausted. -/
def encodeVarintAux : Nat → Nat → List Nat
  | 0, _ => []
  | fuel + 1, n => if n < 128 then [n] else (n % 128 + 128) :: encodeVarintAux fuel (n / 128)

/-- Minimal little-endian base-128 encoding of a natural number: the canonical
varint form that the spec's round-trip property (section 8) re-encodes into. -/
def encodeVarint (n : Nat) : List Nat := encodeVarintAux (n + 1) n

/-- The integer denoted by a varint byte sequence (all 7-bit groups,
unbounded): the "encoded integer" before any 64-bit reduction. -/
def varintValue : List Nat → Nat
  | [] => 0
  | b :: bs => b % 128 + 128 * varintValue bs

/-- Recognises the byte shape of one complete varint: every byte below 256,
the continuation bit set on every byte but the last, and clear on the last. -/
def varintBytes : List Nat → Bool
  | [] => false
  | [b] => decide (b < 128)
  | b :: bs => decide (128 ≤ b) && decide (b < 256) && varintBytes bs

end VarintEncoding

/-- The root-anchoring invariant of the context stack: the stack is nonempty
and its outermost entry (the last element here; index 0 of the Rust `Vec`) is
the unbounded root context `{ start := 0, length := None }`. -/
def rootAnchored (ms : List EP.MessageContext) : Prop :=
  ms.getLast? = some (EP.MessageContext.new 0 none)

instance (ms : List EP.MessageContext) : Decidable (rootAnchored ms) := by
  unfold rootAnchored
  infer_instance

section TestVectors

/-- The `PROTOBUF_EXAMPLE` byte string of `example-parser.rs`. -/
def protobufExample : List Nat :=
  [0x08, 0x8f, 0x81, 0xeb, 0xcf, 0xe0, 0x2a,
   0x12, 0x08, 0x6b, 0x6f, 0x74, 0x6c, 0x69, 0x6e, 0x34, 0x36,
   0x3a, 0x05, 0x00, 0x01, 0x03, 0x04, 0x07,
   0x42, 0x00,
   0x48, 0xfa, 0x01,
   0x55, 0x00, 0x00, 0x48, 0x43,
   0x72, 0x0a, 0x0a, 0x08, 0x50, 0x4f, 0x4b, 0x45, 0x43, 0x4f, 0x49, 0x4e,
   0x72, 0x0c, 0x0a, 0x08, 0x53, 0x54, 0x41, 0x52, 0x44, 0x55, 0x53, 0x54, 0x10, 0x64]

/-- The ASCII bytes of `"kotlin46"`. -/
def kotlin46 : List Nat := [0x6b, 0x6f, 0x74, 0x6c, 0x69, 0x6e, 0x34, 0x36]

/-- The ASCII bytes of `"POKECOIN"`. -/
def pokecoin : List Nat := [0x50, 0x4f, 0x4b, 0x45, 0x43, 0x4f, 0x49, 0x4e]

/-- The ASCII bytes of `"STARDUST"`. -/
def stardust : List Nat := [0x53, 0x54, 0x41, 0x52, 0x44, 0x55, 0x53, 0x54]

/-- A well-formed two-token stream: a chunk field holding `"kotlin46"`
followed by a chunk field holding the five raw bytes `00 01 03 04 07`. -/
def twoTokenStream : List Nat :=
  [0x12, 0x08] ++ kotlin46 ++ [0x3a, 0x05, 0x00, 0x01, 0x03, 0x04, 0x07]

/-- A chunk field whose body passes the strict classifier's three-field probe
(three plausible varint fields) but whose fourth field has tag byte `0x06`
(field number 0, wire-type code 6), corrupting the speculative descent. -/
def backtrackStream : List Nat := [0x0a, 0x07, 0x08, 0x01, 0x10, 0x01, 0x18, 0x01, 0x06]

end TestVectors

section BitLemmas

/-- Accumulating a shifted group into an accumulator confined to the low `k`
bits is plain addition. -/
theorem lor_mul_pow_eq_add {acc : Nat} (b k : Nat) (h : acc < 2 ^ k) :
    acc ||| b * 2 ^ k = acc + b * 2 ^ k := by
  rw [Nat.lor_comm, mul_comm b (2 ^ k), ← Nat.mul_add_lt_is_or h b]
  omega

/-- Masking with `0x7F` extracts the 7-bit group. -/
theorem and_127_eq_mod (x : Nat) : x &&& 127 = x % 128 := by
  have h : (127 : Nat) = 2 ^ 7 - 1 := by norm_num
  rw [h, Nat.and_pow_two_sub_one_eq_mod]

/-- A byte below `0x80` has a clear continuation bit. -/
theorem and_128_of_lt {x : Nat} (h : x < 128) : x &&& 128 = 0 := by
  have h2 : (128 : Nat) = 2 ^ 7 := by norm_num
  rw [h2, Nat.and_two_pow]
  have hf : x.testBit 7 = false := Nat.testBit_lt_two_pow (by omega)
  simp [hf]

/-- A byte in `[0x80, 0xFF]` has a set continuation bit. -/
theorem and_128_of_ge {x : Nat} (h1 : 128 ≤ x) (h2 : x < 256) : x &&& 128 = 128 := by
  have h3 : (128 : Nat) = 2 ^ 7 := by norm_num
  rw [h3, Nat.and_two_pow]
  have h4 : x / 2 ^ 7 = 1 := by omega
  have ht : x.testBit 7 = true := by
    rw [Nat.testBit_to_div_mod, h4]
    decide
  simp [ht]

/-- Adding a multiple of `2 ^ j` to a value confined below `2 ^ j` and
reducing modulo `2 ^ k` truncates only the multiplier. -/
theorem add_mul_mod_two_pow {acc : Nat} (q : Nat) {j k : Nat} (hj : j ≤ k)
    (ha : acc < 2 ^ j) :
    (acc + q * 2 ^ j) % 2 ^ k = acc + q % 2 ^ (k - j) * 2 ^ j := by
  have hsplit : (2 : Nat) ^ k = 2 ^ (k - j) * 2 ^ j := by
    rw [← pow_add]; congr 1; omega
  have hq := Nat.div_add_mod q (2 ^ (k - j))
  have e1 : acc + q * 2 ^ j
      = acc + q % 2 ^ (k - j) * 2 ^ j + q / 2 ^ (k - j) * 2 ^ k := by
    rw [hsplit]; nlinarith [hq]
  rw [e1, Nat.add_mul_mod_self_right]
  have hmod : q % 2 ^ (k - j) < 2 ^ (k - j) := Nat.mod_lt _ (by positivity)
  have hlt : acc + q % 2 ^ (k - j) * 2 ^ j < 2 ^ k := by
    rw [hsplit]; nlinarith [hmod]
  exact Nat.mod_eq_of_lt hlt

/-- Special case of `add_mul_mod_two_pow`: nothing is truncated when the
multiplier already fits. -/
theorem add_mul_mod_two_pow_of_lt {acc : Nat} (q : Nat) {j k : Nat} (hj : j ≤ k)
    (ha : acc < 2 ^ j) (hq : q < 2 ^ (k - j)) :
    (acc + q * 2 ^ j) % 2 ^ k = acc + q * 2 ^ j := by
  rw [add_mul_mod_two_pow q hj ha, Nat.mod_eq_of_lt hq]

end BitLemmas
section StatePreservation

theorem DataReader.read1_shape {r : DataReader} {x : Nat} {r1 : DataReader}
    (h : r.read1 = .ok (x, r1)) : r1.input = r.input ∧ r1.cursor = r.cursor + 1 := by
  unfold DataReader.read1 at h
  cases hd : r.input.drop r.cursor with
  | nil => rw [hd] at h; cases h
  | cons b t =>
    rw [hd] at h
    simp only [Except.ok.injEq, Prod.mk.injEq] at h
    obtain ⟨-, h2⟩ := h
    rw [← h2]
    exact ⟨rfl, rfl⟩

theorem DataReader.skip_shape {r r1 : DataReader} {n : Nat}
    (h : r.skip n = .ok r1) : r1.input = r.input := by
  unfold DataReader.skip at h
  split at h
  · simp only [Except.ok.injEq] at h
    rw [← h]
  · cases h

theorem EP.readVarintLoop_input (fuel : Nat) :
    ∀ r result pos, ((EP.readVarintLoop fuel r result pos).2).input = r.input := by
  induction fuel with
  | zero => intro r result pos; rfl
  | succ f ih =>
    intro r result pos
    unfold EP.readVarintLoop
    split
    · rfl
    · next x r1 heq =>
      obtain ⟨h1, -⟩ := DataReader.read1_shape heq
      dsimp only
      split
      · exact h1
      · split
        · exact h1
        · rw [ih]; exact h1

theorem EP.read_varint_input (r : DataReader) : ((EP.read_varint r).2).input = r.input :=
  EP.readVarintLoop_input 10 r 0 0

theorem EP.read_tag_input (r : DataReader) : ((EP.read_tag r).2).input = r.input := by
  unfold EP.read_tag
  split
  · next e r1 heq =>
    have := EP.read_varint_input r
    rw [heq] at this
    exact this
  · next v r1 heq =>
    have h1 : r1.input = r.input := by
      have := EP.read_varint_input r
      rw [heq] at this
      exact this
    split
    · split
      · exact h1
      · dsimp only
        split
        · exact h1
        · exact h1
    · exact h1

theorem EP.read_tagged_data_input (r : DataReader) :
    ((EP.read_tagged_data r).2).input = r.input := by
  unfold EP.read_tagged_data
  split
  · next e r1 heq =>
    have := EP.read_tag_input r
    rw [heq] at this
    exact this
  · next p r1 heq =>
    have h1 : r1.input = r.input := by
      have := EP.read_tag_input r
      rw [heq] at this
      exact this
    split
    · exact h1
    · exact h1
    · -- varint
      split
      · next e r2 heq2 =>
        have := EP.read_varint_input r1
        rw [heq2] at this
        exact this.trans h1
      · next v r2 heq2 =>
        have := EP.read_varint_input r1
        rw [heq2] at this
        exact this.trans h1
    · -- 32 bit
      split
      · exact h1
      · next r2 heq2 => exact (DataReader.skip_shape heq2).trans h1
    · -- 64 bit
      split
      · exact h1
      · next r2 heq2 => exact (DataReader.skip_shape heq2).trans h1
    · -- chunk
      split
      · next e r2 heq2 =>
        have := EP.read_varint_input r1
        rw [heq2] at this
        exact this.trans h1
      · next v r2 heq2 =>
        have := EP.read_varint_input r1
        rw [heq2] at this
        exact this.trans h1

theorem EP.findNextChunkLoop_input (fuel : Nat) :
    ∀ r m, ((EP.findNextChunkLoop fuel r m).2).input = r.input := by
  induction fuel with
  | zero => intro r m; rfl
  | succ f ih =>
    intro r m
    unfold EP.findNextChunkLoop
    split
    · rfl
    · dsimp only
      split
      · next out heq =>
        -- inl case: out is one of the bound results carrying r
        cases hml : m.length with
        | none => rw [hml] at heq; cases heq
        | some len =>
          rw [hml] at heq
          dsimp only at heq
          split at heq
          · cases heq; rfl
          · split at heq
            · cases heq; rfl
            · cases heq
      · split
        · next e r1 heq =>
          have := EP.read_tagged_data_input r
          rw [heq] at this
          exact this
        · next len r1 heq =>
          have := EP.read_tagged_data_input r
          rw [heq] at this
          exact this
        · next r1 heq =>
          have := EP.read_tagged_data_input r
          rw [heq] at this
          rw [ih]
          exact this

theorem EP.find_next_chunk_input (r : DataReader) (m : EP.MessageContext) :
    ((EP.find_next_chunk r m).2).input = r.input :=
  EP.findNextChunkLoop_input (r.remains + 1) r m

end StatePreservation

/-! ## Claim theorems -/

/-- C1: on the example stream `08 8F 81 EB CF E0 2A 12 08 "kotlin46" 3A 05 00
01 03 04 07 42 00 ...`, successive `next_token` calls (`read_next_token_raw`
over a fresh `ParserContext`) yield the byte range `"kotlin46"`, then the five
raw bytes `00 01 03 04 07`, then an empty byte range, and then continue with
the remaining fields of the stream (the `"POKECOIN"` and `"STARDUST"`
leaves). -/
theorem tokens_of_example_stream :
    (EP.runTokens 6 (DataReader.new protobufExample) EP.ParserContext.new).1
      = [kotlin46, [0x00, 0x01, 0x03, 0x04, 0x07], [], pokecoin, stardust] := by
  decide

/-- C2 counterexample: splitting the valid two-token stream
`12 08 "kotlin46" 3A 05 00 01 03 04 07` at byte offset 1 (inside the first
chunk header) and feeding the two slices sequentially through the same parser
context yields no tokens at all, while the unsplit stream yields both tokens:
the `TruncatedVarint` resume discards the tail of the split tag varint and the
parse desynchronises. -/
theorem split_stream_counterexample :
    (EP.runTokens 10 (DataReader.new twoTokenStream) EP.ParserContext.new).1
      = [kotlin46, [0x00, 0x01, 0x03, 0x04, 0x07]]
    ∧ ((EP.runTokens 10 (DataReader.new (twoTokenStream.take 1)) EP.ParserContext.new).1
        ++ (EP.runTokens 10 (DataReader.new (twoTokenStream.drop 1))
              (EP.runTokens 10 (DataReader.new (twoTokenStream.take 1))
                EP.ParserContext.new).2).1)
      = [] := by
  decide

/-- C2 (amended): splitting the two-token stream at a top-level token
boundary (offsets 0, 10 and 17) and feeding the slices sequentially through
the same parser context yields exactly the token sequence of the unsplit
stream; an arbitrary interior offset does not. -/
theorem split_at_boundary_preserves_tokens :
    ∀ k ∈ [0, 10, 17],
      ((EP.runTokens 10 (DataReader.new (twoTokenStream.take k)) EP.ParserContext.new).1
        ++ (EP.runTokens 10 (DataReader.new (twoTokenStream.drop k))
              (EP.runTokens 10 (DataReader.new (twoTokenStream.take k))
                EP.ParserContext.new).2).1)
      = (EP.runTokens 10 (DataReader.new twoTokenStream) EP.ParserContext.new).1 := by
  decide

/-- Witness for `split_at_boundary_preserves_tokens` at the interior field
boundary, offset 10. -/
theorem split_at_boundary_preserves_tokens_witness :
    ((EP.runTokens 10 (DataReader.new (twoTokenStream.take 10)) EP.ParserContext.new).1
      ++ (EP.runTokens 10 (DataReader.new (twoTokenStream.drop 10))
            (EP.runTokens 10 (DataReader.new (twoTokenStream.take 10))
              EP.ParserContext.new).2).1)
    = (EP.runTokens 10 (DataReader.new twoTokenStream) EP.ParserContext.new).1 :=
  split_at_boundary_preserves_tokens 10 (by decide)

/-- C4: `Corrupt` (`Error::InvalidData`) is sticky: once the persisted error
state is `InvalidData`, every `read_next_token_raw` call returns `None` with
the reader and context untouched, and `prepare_for_next_slice` never replaces
the stored state, whatever bytes or error the next slice brings. -/
theorem corrupt_is_sticky (fuel : Nat) (r : DataReader) (ctx : EP.ParserContext)
    (h : ctx.error = some .invalidData) :
    EP.read_next_token_raw fuel r ctx = (none, r, ctx)
    ∧ ∀ n e, ctx.prepare_for_next_slice n e = ctx := by
  constructor
  · unfold EP.read_next_token_raw
    rw [h]
  · intro n e
    unfold EP.ParserContext.prepare_for_next_slice
    rw [if_pos h]

/-- Witness for `corrupt_is_sticky`: a corrupt context ignores a well-formed
new slice. -/
theorem corrupt_is_sticky_witness :
    EP.read_next_token_raw 5 (DataReader.new [0x12, 0x08])
        { messages := [EP.MessageContext.new 0 none], error := some .invalidData }
      = (none, DataReader.new [0x12, 0x08],
         { messages := [EP.MessageContext.new 0 none], error := some .invalidData }) :=
  (corrupt_is_sticky 5 (DataReader.new [0x12, 0x08])
    { messages := [EP.MessageContext.new 0 none], error := some .invalidData } rfl).1

/-- C5: the strict classifier of `example-parser.rs` rejects the pure ASCII
bytes `"POKECOIN"` and accepts `0A 08 "POKECOIN"`, as the claim states; but
the relaxed guesser of `src/guesser.rs` diverges from the claim (and from its
own unit tests, which expect `Ok(true)` and `Ok(false)` here): it re-parses
the chunk *body* returned by `read_value` as a second length varint, so on
`0A 08 "POKECOIN"` it has read one valid field with no weird values yet
returns `Err(Eof)`, and on `"POKECOIN"` it returns `Ok(true)`. -/
theorem classifier_vectors_and_guesser_divergence :
    EP.guess_is_message (DataReader.new pokecoin) = .ok false
    ∧ EP.guess_is_message (DataReader.new ([0x0a, 0x08] ++ pokecoin)) = .ok true
    ∧ Guesser.guess_is_message ([0x0a, 0x08] ++ pokecoin) = .error .eof
    ∧ Guesser.guess_is_message pokecoin = .ok true := by
  decide

/-- C8 counterexample: resuming a `TruncatedFixed(4)` state on an *empty*
slice (which holds fewer than 4 bytes) stores `TruncatedFixed(4)` again — the
remainder is not strictly smaller than `n`. -/
theorem truncated_fixed_empty_slice :
    EP.read_next_token_raw 100 (DataReader.new [])
        { messages := [EP.MessageContext.new 0 none], error := some (.eof 4) }
      = (none, DataReader.new [],
         { messages := [EP.MessageContext.new 0 none], error := some (.eof 4) }) := by
  decide

/-- C8 (amended): resuming a `TruncatedFixed(n)` state first skips `n` bytes;
if the new slice holds fewer than `n` bytes, the call returns `None` and
stores the remainder `n - remaining_count` (the bytes still owed, per the
cursor contract) — strictly smaller than `n` exactly when the slice is
nonempty, and equal to `n` for an empty slice. -/
theorem truncated_fixed_resume (fuel n : Nat) (input : List Nat)
    (ms : List EP.MessageContext) (hshort : input.length < n) :
    (EP.read_next_token_raw fuel (DataReader.new input)
        { messages := ms, error := some (.eof n) }).1 = none
    ∧ (EP.read_next_token_raw fuel (DataReader.new input)
        { messages := ms, error := some (.eof n) }).2.2.error
      = some (.eof (n - input.length))
    ∧ (0 < input.length → n - input.length < n) := by
  have hrem : (DataReader.new input).remains = input.length := by
    simp [DataReader.new, DataReader.remains]
  have hskip : (DataReader.new input).skip n = .error () := by
    unfold DataReader.skip
    rw [hrem, if_neg (by omega)]
  unfold EP.read_next_token_raw
  dsimp only
  rw [hskip]
  dsimp only
  simp only [EP.ParserContext.prepare_for_next_slice, hrem]
  norm_num
  rw [if_neg (by simp)]
  exact ⟨rfl, by omega⟩

/-- Witness for `truncated_fixed_resume`: owing 5 bytes and receiving a
2-byte slice stores `TruncatedFixed(3)`. -/
theorem truncated_fixed_resume_witness :
    (EP.read_next_token_raw 100 (DataReader.new [0, 0])
        { messages := [EP.MessageContext.new 0 none], error := some (.eof 5) }).1 = none
    ∧ (EP.read_next_token_raw 100 (DataReader.new [0, 0])
        { messages := [EP.MessageContext.new 0 none], error := some (.eof 5) }).2.2.error
      = some (.eof 3)
    ∧ (0 < ([0, 0] : List Nat).length → 3 < 5) := by
  have h := truncated_fixed_resume 100 5 [0, 0] [EP.MessageContext.new 0 none] (by decide)
  exact ⟨h.1, h.2.1, fun _ => by omega⟩

/-- C3: when the speculative descent into a classifier-approved chunk fails —
the innermost active context is bounded (`length = Some L`) and
`find_next_chunk` signals `Corrupt` inside it — `next_token` backtracks: it
seeks to the context's `start`, returns exactly the chunk's original `L`
bytes unchanged as one opaque token, and pops the context. -/
theorem backtrack_returns_opaque_chunk (fuel : Nat) (r : DataReader) (ctx : EP.ParserContext)
    (m : EP.MessageContext) (rest : List EP.MessageContext) (L : Nat)
    (herr : ctx.error = none) (hmsgs : ctx.messages = m :: rest) (heof : r.eof = false)
    (hlen : m.length = some L)
    (hfind : (EP.find_next_chunk r m).1 = .error .invalidData)
    (hfit : m.start + L ≤ r.input.length) :
    EP.read_next_token_raw (fuel + 1) r ctx
      = (some ((r.input.drop m.start).take L), ⟨r.input, m.start + L⟩,
         { ctx with messages := rest }) := by
  have hfc : EP.find_next_chunk r m
      = (.error .invalidData, (EP.find_next_chunk r m).2) :=
    Prod.ext_iff.mpr ⟨hfind, rfl⟩
  have hinp : ((EP.find_next_chunk r m).2).input = r.input := EP.find_next_chunk_input r m
  have hseek : ((EP.find_next_chunk r m).2).seek m.start = .ok ⟨r.input, m.start⟩ := by
    unfold DataReader.seek
    rw [hinp, if_pos (by omega)]
  have hread : (DataReader.mk r.input m.start).read L
      = .ok ((r.input.drop m.start).take L, ⟨r.input, m.start + L⟩) := by
    unfold DataReader.read DataReader.remains
    dsimp only
    rw [if_pos (by omega)]
  unfold EP.read_next_token_raw
  rw [herr]
  unfold EP.tokenLoop
  rw [heof]
  dsimp only
  rw [hmsgs]
  dsimp only
  rw [hfc]
  dsimp only
  rw [hlen]
  dsimp only
  rw [hseek]
  dsimp only
  rw [hread]
  simp [herr]

/-- Witness for `backtrack_returns_opaque_chunk`: inside the stream
`0A 07 08 01 10 01 18 01 06` the pushed 7-byte chunk context corrupts at its
fourth field, and the call returns the 7 original body bytes and pops back to
the root. -/
theorem backtrack_returns_opaque_chunk_witness :
    EP.read_next_token_raw 1 (DataReader.mk backtrackStream 2)
        { messages := [EP.MessageContext.new 2 (some 7), EP.MessageContext.new 0 none],
          error := none }
      = (some [0x08, 0x01, 0x10, 0x01, 0x18, 0x01, 0x06], DataReader.mk backtrackStream 9,
         { messages := [EP.MessageContext.new 0 none], error := none }) := by
  have h := backtrack_returns_opaque_chunk 0 (DataReader.mk backtrackStream 2)
    { messages := [EP.MessageContext.new 2 (some 7), EP.MessageContext.new 0 none],
      error := none }
    (EP.MessageContext.new 2 (some 7)) [EP.MessageContext.new 0 none] 7
    rfl rfl (by decide) rfl (by decide) (by decide)
  exact h.trans (by decide)

/-- C6: `read_tag` rejects as `Corrupt` every decoded tag whose field number
is 0 or lies in the reserved range `[19000, 19999]` — whatever the wire-type
bits are — and every tag whose low-3-bit wire-type code is outside 0–5; and a
successful `read_tag` never carries such a field number. -/
theorem read_tag_rejects_bad_tags (r : DataReader) (v : Nat) (r1 : DataReader)
    (h : EP.read_varint r = (.ok v, r1)) :
    ((v >>> 3 = 0 ∨ (19000 ≤ v >>> 3 ∧ v >>> 3 ≤ 19999) ∨ 6 ≤ v &&& 7) →
      (EP.read_tag r).1 = .error .invalidData)
    ∧ ∀ fn wt, (EP.read_tag r).1 = .ok (fn, wt) →
        fn ≠ 0 ∧ ¬(19000 ≤ fn ∧ fn ≤ 19999) := by
  have hand : v &&& 7 = v % 8 := by
    have h7 : (7 : Nat) = 2 ^ 3 - 1 := by norm_num
    rw [h7, Nat.and_pow_two_sub_one_eq_mod]
  unfold EP.read_tag
  rw [h]
  dsimp only
  constructor
  · intro hcond
    split
    · cases htf : EP.WireType.tryFrom (v &&& 7) with
      | error u => rfl
      | ok wt =>
        dsimp only
        rw [if_pos ?_]
        rcases hcond with h0 | hres | hwt
        · exact Or.inl h0
        · exact Or.inr hres
        · exfalso
          have h8 : v % 8 < 8 := Nat.mod_lt _ (by norm_num)
          have h67 : v &&& 7 = 6 ∨ v &&& 7 = 7 := by omega
          rcases h67 with h6 | h7x
          · rw [h6] at htf; cases htf
          · rw [h7x] at htf; cases htf
    · rfl
  · intro fn wt hok
    split at hok
    · cases htf : EP.WireType.tryFrom (v &&& 7) with
      | error u => rw [htf] at hok; cases hok
      | ok wt2 =>
        rw [htf] at hok
        dsimp only at hok
        split at hok
        · cases hok
        · next hcond2 =>
          push_neg at hcond2
          simp only [Prod.mk.injEq, Except.ok.injEq] at hok
          obtain ⟨⟨rfl, -⟩, -⟩ := hok
          exact ⟨hcond2.1, fun hr => by have := hcond2.2 hr.1; omega⟩
    · cases hok

/-- Witness for `read_tag_rejects_bad_tags`: the tag varint `0x06` decodes to
field number 0 with wire-type code 6 and is rejected. -/
theorem read_tag_rejects_bad_tags_witness :
    (EP.read_tag (DataReader.new [0x06])).1 = .error .invalidData :=
  (read_tag_rejects_bad_tags (DataReader.new [0x06]) 6 (DataReader.mk [0x06] 1)
    (by decide)).1 (by decide)

section RootInvariant

/-- Rebasing preserves the root: `shift` maps the root context to itself. -/
theorem rootAnchored_map_shift {ms : List EP.MessageContext} (extra : Nat)
    (h : rootAnchored ms) : rootAnchored (ms.map (fun m => m.shift extra)) := by
  unfold rootAnchored at h ⊢
  rw [List.getLast?_map, h]
  rfl

/-- Pushing a context preserves the root. -/
theorem rootAnchored_cons {m : EP.MessageContext} {ms : List EP.MessageContext}
    (h : rootAnchored ms) (hne : ms ≠ []) : rootAnchored (m :: ms) := by
  unfold rootAnchored at h ⊢
  cases ms with
  | nil => exact absurd rfl hne
  | cons a t => rw [List.getLast?_cons_cons, h]

/-- Popping a bounded innermost context preserves the root: the popped entry
has `length = Some`, so it cannot be the root and the tail is nonempty. -/
theorem rootAnchored_pop {m : EP.MessageContext} {ms : List EP.MessageContext} {L : Nat}
    (h : rootAnchored (m :: ms)) (hm : m.length = some L) : rootAnchored ms := by
  unfold rootAnchored at h ⊢
  cases ms with
  | nil =>
    exfalso
    simp only [List.getLast?_singleton, Option.some.injEq] at h
    rw [h] at hm
    cases hm
  | cons a t => rw [← h, List.getLast?_cons_cons]

/-- `prepare_for_next_slice` preserves the root. -/
theorem rootAnchored_prepare {ctx : EP.ParserContext} (n : Nat) (e : Option EP.Error)
    (h : rootAnchored ctx.messages) :
    rootAnchored (ctx.prepare_for_next_slice n e).messages := by
  unfold EP.ParserContext.prepare_for_next_slice
  split
  · exact h
  · exact rootAnchored_map_shift n h

/-- The extraction loop preserves the root. -/
theorem tokenLoop_rootAnchored (fuel : Nat) :
    ∀ r ctx, rootAnchored ctx.messages →
      rootAnchored ((EP.tokenLoop fuel r ctx).2.2).messages := by
  induction fuel with
  | zero => intro r ctx h; exact h
  | succ f ih =>
    intro r ctx h
    unfold EP.tokenLoop
    split
    · exact h
    · cases hms : ctx.messages with
      | nil => exact h
      | cons m rest =>
        dsimp only
        have h2 : rootAnchored (m :: rest) := by rw [← hms]; exact h
        split
        · -- find = ok (some length)
          split
          · exact h  -- peek error
          · split
            · -- classified as message: push and recurse
              apply ih
              dsimp only
              exact rootAnchored_cons h2 (by intro hc; cases hc)
            · split
              · exact h  -- skip error
              · exact h  -- token returned
        · -- find = ok none
          cases hml : m.length with
          | some L =>
            dsimp only
            exact ih _ _ (rootAnchored_pop h2 hml)
          | none =>
            dsimp only
            exact rootAnchored_prepare _ _ h
        · -- find = error invalidData
          cases hml : m.length with
          | some L =>
            dsimp only
            split
            · exact h  -- seek error
            · split
              · exact rootAnchored_pop h2 hml  -- read error, popped
              · exact rootAnchored_pop h2 hml  -- token returned, popped
          | none =>
            dsimp only
            exact rootAnchored_prepare _ _ h
        · -- find = other error
          exact rootAnchored_prepare _ _ h

end RootInvariant

/-- C9: the context stack always keeps the unbounded root context installed
by `ParserContext::new` at `Vec` index 0: the fresh context satisfies the
invariant, and every `next_token` call — pops remove only bounded contexts,
and slice rebasing maps the root to itself — preserves it, so an innermost
active context always exists while parsing. -/
theorem context_stack_root_never_removed :
    rootAnchored EP.ParserContext.new.messages
    ∧ ∀ fuel r ctx, rootAnchored ctx.messages →
        rootAnchored ((EP.read_next_token_raw fuel r ctx).2.2).messages := by
  constructor
  · rfl
  · intro fuel r ctx h
    unfold EP.read_next_token_raw
    cases herr : ctx.error with
    | none => exact tokenLoop_rootAnchored fuel r ctx h
    | some e =>
      cases e with
      | varintEof => exact tokenLoop_rootAnchored fuel _ _ h
      | eof n =>
        dsimp only
        split
        · exact tokenLoop_rootAnchored fuel _ _ h
        · exact rootAnchored_prepare _ _ h
      | invalidData => exact h

/-- Witness for `context_stack_root_never_removed`: a run over the example
stream from a fresh context keeps the root anchored. -/
theorem context_stack_root_never_removed_witness :
    rootAnchored
      ((EP.read_next_token_raw 100 (DataReader.new protobufExample)
          EP.ParserContext.new).2.2).messages :=
  context_stack_root_never_removed.2 100 (DataReader.new protobufExample)
    EP.ParserContext.new context_stack_root_never_removed.1

section VarintRoundTrip

/-- One unfolding of the streaming varint loop when the next byte is known. -/
theorem EP.readVarintLoop_step (k : Nat) (input : List Nat) (cur x : Nat)
    (rest1 : List Nat) (acc pos : Nat) (hdrop : input.drop cur = x :: rest1) :
    EP.readVarintLoop (k + 1) ⟨input, cur⟩ acc pos
      = (if x &&& 128 == 0
          then (.ok (acc ||| ((x &&& 127) <<< (pos * 7)) % 2 ^ 64), ⟨input, cur + 1⟩)
          else if pos + 1 == 10 then (.error .invalidData, ⟨input, cur + 1⟩)
          else EP.readVarintLoop k ⟨input, cur + 1⟩
            (acc ||| ((x &&& 127) <<< (pos * 7)) % 2 ^ 64) (pos + 1)) := by
  have hr1 : (DataReader.mk input cur).read1 = .ok (x, ⟨input, cur + 1⟩) := by
    unfold DataReader.read1
    dsimp only
    rw [hdrop]
  conv_lhs => rw [EP.readVarintLoop]
  rw [hr1]

/-- The streaming `read_varint` loop consumes a canonical encoding laid at the
cursor and adds the encoded value, shifted into place, to the accumulator. -/
theorem EP.readVarintLoop_encode (fuel : Nat) :
    ∀ n pos acc input cur rest, n < fuel →
      input.drop cur = encodeVarintAux fuel n ++ rest →
      n < 2 ^ (64 - pos * 7) → pos ≤ 9 → acc < 2 ^ (pos * 7) →
      EP.readVarintLoop (10 - pos) ⟨input, cur⟩ acc pos
        = (.ok (acc + n * 2 ^ (pos * 7)),
           ⟨input, cur + (encodeVarintAux fuel n).length⟩) := by
  induction fuel with
  | zero => intro n pos acc input cur rest hn; omega
  | succ f ih =>
    intro n pos acc input cur rest hn hdrop hbound hpos hacc
    have hks : 10 - pos = (9 - pos) + 1 := by omega
    by_cases hsmall : n < 128
    · -- final byte
      rw [encodeVarintAux, if_pos hsmall] at hdrop ⊢
      have hstep := EP.readVarintLoop_step (9 - pos) input cur n rest acc pos hdrop
      rw [hks, hstep]
      have hx127 : n &&& 127 = n := by
        rw [and_127_eq_mod, Nat.mod_eq_of_lt hsmall]
      have hx128 : n &&& 128 = 0 := and_128_of_lt hsmall
      rw [hx127, hx128]
      have hshift : (n <<< (pos * 7)) % 2 ^ 64 = n * 2 ^ (pos * 7) := by
        rw [Nat.shiftLeft_eq]
        apply Nat.mod_eq_of_lt
        calc n * 2 ^ (pos * 7) < 2 ^ (64 - pos * 7) * 2 ^ (pos * 7) := by
              exact (Nat.mul_lt_mul_right (Nat.pos_pow_of_pos _ (by norm_num))).mpr hbound
        _ ≤ 2 ^ 64 := by rw [← pow_add]; exact Nat.pow_le_pow_right (by norm_num) (by omega)
      rw [hshift, lor_mul_pow_eq_add n (pos * 7) hacc]
      simp
    · -- continuation byte
      rw [encodeVarintAux, if_neg hsmall] at hdrop ⊢
      have hge : 128 ≤ n := by omega
      have hpos8 : pos ≤ 8 := by
        by_contra hgt
        have h9 : pos = 9 := by omega
        rw [h9] at hbound
        norm_num at hbound
        omega
      have hdrop1 : input.drop cur = (n % 128 + 128) :: (encodeVarintAux f (n / 128) ++ rest) := by
        simpa using hdrop
      have hstep := EP.readVarintLoop_step (9 - pos) input cur (n % 128 + 128)
        (encodeVarintAux f (n / 128) ++ rest) acc pos hdrop1
      rw [hks, hstep]
      have hx127 : (n % 128 + 128) &&& 127 = n % 128 := by
        rw [and_127_eq_mod, Nat.add_mod_right, Nat.mod_eq_of_lt (by omega)]
      have hx128 : (n % 128 + 128) &&& 128 = 128 :=
        and_128_of_ge (by omega) (by omega)
      rw [hx127, hx128]
      have hne0 : ((128 : Nat) == 0) = false := by decide
      have hne10 : (pos + 1 == 10) = false := by
        simp only [beq_eq_false_iff_ne, ne_eq]
        omega
      rw [hne0, hne10]
      simp only [Bool.false_eq_true, if_false]
      have hshift : ((n % 128) <<< (pos * 7)) % 2 ^ 64 = n % 128 * 2 ^ (pos * 7) := by
        rw [Nat.shiftLeft_eq]
        apply Nat.mod_eq_of_lt
        have h1 : n % 128 * 2 ^ (pos * 7) < 128 * 2 ^ (pos * 7) :=
          (Nat.mul_lt_mul_right (Nat.pos_pow_of_pos _ (by norm_num))).mpr
            (Nat.mod_lt _ (by norm_num))
        have h2 : (128 : Nat) * 2 ^ (pos * 7) = 2 ^ (pos * 7 + 7) := by
          rw [pow_add]; ring
        have h3 : (2 : Nat) ^ (pos * 7 + 7) ≤ 2 ^ 64 :=
          Nat.pow_le_pow_right (by norm_num) (by omega)
        omega
      rw [hshift, lor_mul_pow_eq_add (n % 128) (pos * 7) hacc]
      have hrec : input.drop (cur + 1) = encodeVarintAux f (n / 128) ++ rest := by
        rw [← List.tail_drop, hdrop1]
        rfl
      have hdivf : n / 128 < f := by
        have h1 : n / 128 < n := Nat.div_lt_self (by omega) (by norm_num)
        omega
      have hdivb : n / 128 < 2 ^ (64 - (pos + 1) * 7) := by
        rw [Nat.div_lt_iff_lt_mul (by norm_num : (0 : Nat) < 128)]
        calc n < 2 ^ (64 - pos * 7) := hbound
        _ = 2 ^ (64 - (pos + 1) * 7) * 128 := by
            rw [show (128 : Nat) = 2 ^ 7 by norm_num, ← pow_add]
            congr 1
            omega
      have hacc1 : acc + n % 128 * 2 ^ (pos * 7) < 2 ^ ((pos + 1) * 7) := by
        have h1 : n % 128 < 128 := Nat.mod_lt _ (by norm_num)
        have h2 : (2 : Nat) ^ ((pos + 1) * 7) = 128 * 2 ^ (pos * 7) := by
          rw [show (128 : Nat) = 2 ^ 7 by norm_num, ← pow_add]
          congr 1
          ring
        nlinarith
      have hih := ih (n / 128) (pos + 1) (acc + n % 128 * 2 ^ (pos * 7)) input (cur + 1)
        rest hdivf hrec hdivb (by omega) hacc1
      have hks2 : 10 - (pos + 1) = 9 - pos := by omega
      rw [hks2] at hih
      rw [hih]
      have hmul : (2 : Nat) ^ ((pos + 1) * 7) = 2 ^ (pos * 7) * 128 := by
        rw [show (128 : Nat) = 2 ^ 7 by norm_num, ← pow_add]
        congr 1
        ring
      have hsplit := Nat.div_add_mod n 128
      have hval : acc + n % 128 * 2 ^ (pos * 7) + n / 128 * 2 ^ ((pos + 1) * 7)
          = acc + n * 2 ^ (pos * 7) := by
        rw [hmul]
        nlinarith
      have hlen : cur + 1 + (encodeVarintAux f (n / 128)).length
          = cur + ((n % 128 + 128) :: encodeVarintAux f (n / 128)).length := by
        simp only [List.length_cons]
        omega
      rw [hval, hlen]

end VarintRoundTrip

/-- `parse_varint_bytes` consumes a canonical encoding and adds the encoded
value, shifted into place, to the accumulator (`pos` counts bits here). -/
theorem Core.parseVarintBytesAux_encode (fuel : Nat) :
    ∀ n pos acc, n < fuel →
      n < 2 ^ (64 - pos) → pos ≤ 63 → (n ≠ 0 ∨ pos = 0) → acc < 2 ^ pos →
      Core.parseVarintBytesAux (encodeVarintAux fuel n) acc pos = .ok (acc + n * 2 ^ pos) := by
  induction fuel with
  | zero => intro n pos acc hn; omega
  | succ f ih =>
    intro n pos acc hn hbound hpos hz hacc
    by_cases hsmall : n < 128
    · rw [encodeVarintAux, if_pos hsmall]
      simp only [Core.parseVarintBytesAux]
      have hx127 : n &&& 127 = n := by
        rw [and_127_eq_mod, Nat.mod_eq_of_lt hsmall]
      have hx128 : n &&& 128 = 0 := and_128_of_lt hsmall
      rw [hx127, hx128]
      have hshift : n <<< pos % 2 ^ 64 = n * 2 ^ pos := by
        rw [Nat.shiftLeft_eq]
        apply Nat.mod_eq_of_lt
        calc n * 2 ^ pos < 2 ^ (64 - pos) * 2 ^ pos :=
              (Nat.mul_lt_mul_right (Nat.pos_pow_of_pos _ (by norm_num))).mpr hbound
        _ ≤ 2 ^ 64 := by rw [← pow_add]; exact Nat.pow_le_pow_right (by norm_num) (by omega)
      rw [hshift, lor_mul_pow_eq_add n pos hacc]
      have hcond : ¬(n = 0 ∧ pos + 7 ≠ 7) := by
        rcases hz with h0 | hp
        · exact fun hc => h0 hc.1
        · exact fun hc => hc.2 (by omega)
      simp only [ne_eq, ite_not]
      rw [if_neg hcond]
      norm_num
    · rw [encodeVarintAux, if_neg hsmall]
      simp only [Core.parseVarintBytesAux]
      have hge : 128 ≤ n := by omega
      have hpos56 : pos ≤ 56 := by
        by_contra hgt
        have : (2 : Nat) ^ (64 - pos) ≤ 2 ^ 7 := Nat.pow_le_pow_right (by norm_num) (by omega)
        omega
      have hx127 : (n % 128 + 128) &&& 127 = n % 128 := by
        rw [and_127_eq_mod, Nat.add_mod_right, Nat.mod_eq_of_lt (by omega)]
      have hx128 : (n % 128 + 128) &&& 128 = 128 :=
        and_128_of_ge (by omega) (by omega)
      rw [hx127, hx128]
      have hne0 : ((128 : Nat) == 0) = false := by decide
      rw [hne0]
      simp only [Bool.false_eq_true, if_false]
      rw [if_neg (by omega : ¬64 ≤ pos + 7)]
      have hshift : (n % 128) <<< pos % 2 ^ 64 = n % 128 * 2 ^ pos := by
        rw [Nat.shiftLeft_eq]
        apply Nat.mod_eq_of_lt
        have h1 : n % 128 * 2 ^ pos < 128 * 2 ^ pos :=
          (Nat.mul_lt_mul_right (Nat.pos_pow_of_pos _ (by norm_num))).mpr
            (Nat.mod_lt _ (by norm_num))
        have h2 : (128 : Nat) * 2 ^ pos = 2 ^ (pos + 7) := by
          rw [pow_add]; ring
        have h3 : (2 : Nat) ^ (pos + 7) ≤ 2 ^ 64 :=
          Nat.pow_le_pow_right (by norm_num) (by omega)
        omega
      rw [hshift, lor_mul_pow_eq_add (n % 128) pos hacc]
      have hdivf : n / 128 < f := by
        have h1 : n / 128 < n := Nat.div_lt_self (by omega) (by norm_num)
        omega
      have hdivb : n / 128 < 2 ^ (64 - (pos + 7)) := by
        rw [Nat.div_lt_iff_lt_mul (by norm_num : (0 : Nat) < 128)]
        calc n < 2 ^ (64 - pos) := hbound
        _ = 2 ^ (64 - (pos + 7)) * 128 := by
            rw [show (128 : Nat) = 2 ^ 7 by norm_num, ← pow_add]
            congr 1
            omega
      have hacc1 : acc + n % 128 * 2 ^ pos < 2 ^ (pos + 7) := by
        have h1 : n % 128 < 128 := Nat.mod_lt _ (by norm_num)
        have h2 : (2 : Nat) ^ (pos + 7) = 128 * 2 ^ pos := by
          rw [show (128 : Nat) = 2 ^ 7 by norm_num, ← pow_add]
          congr 1
          ring
        nlinarith
      have hdiv0 : n / 128 ≠ 0 := by
        intro hc
        have := Nat.div_add_mod n 128
        rw [hc] at this
        omega
      have hih := ih (n / 128) (pos + 7) (acc + n % 128 * 2 ^ pos) hdivf hdivb
        (by omega) (Or.inl hdiv0) hacc1
      rw [hih]
      have hmul : (2 : Nat) ^ (pos + 7) = 2 ^ pos * 128 := by
        rw [show (128 : Nat) = 2 ^ 7 by norm_num, ← pow_add]
      have hsplit := Nat.div_add_mod n 128
      have hval : acc + n % 128 * 2 ^ pos + n / 128 * 2 ^ (pos + 7)
          = acc + n * 2 ^ pos := by
        rw [hmul]
        nlinarith
      rw [hval]

/-- C7: decoding a canonical (minimal-length) varint encoding with the
streaming `read_varint` and with `parse_varint_bytes` succeeds and returns the
encoded value with the whole encoding consumed, so re-encoding the decoded
value in minimal little-endian base-128 form reproduces the original bytes. -/
theorem canonical_varint_roundtrip (n : Nat) (h : n < 2 ^ 64) :
    EP.read_varint (DataReader.new (encodeVarint n))
      = (.ok n, ⟨encodeVarint n, (encodeVarint n).length⟩)
    ∧ Core.parse_varint_bytes (encodeVarint n) = .ok n := by
  constructor
  · have hs := EP.readVarintLoop_encode (n + 1) n 0 0 (encodeVarint n) 0 []
      (by omega) (by simp [encodeVarint]) (by simpa using h) (by omega) (by norm_num)
    simpa [EP.read_varint, DataReader.new, encodeVarint] using hs
  · have hp := Core.parseVarintBytesAux_encode (n + 1) n 0 0
      (by omega) (by simpa using h) (by omega) (Or.inr rfl) (by norm_num)
    simpa [Core.parse_varint_bytes, encodeVarint] using hp

/-- Witness for `canonical_varint_roundtrip` at `n = 300` (encoding
`AC 02`). -/
theorem canonical_varint_roundtrip_witness :
    EP.read_varint (DataReader.new (encodeVarint 300))
      = (.ok 300, ⟨encodeVarint 300, (encodeVarint 300).length⟩)
    ∧ Core.parse_varint_bytes (encodeVarint 300) = .ok 300 :=
  canonical_varint_roundtrip 300 (by norm_num)

section TenByteVarint

/-- The streaming `read_varint` loop consumes one complete varint byte
sequence laid at the cursor — canonical or not — and accumulates its encoded
value reduced modulo `2 ^ 64`, provided the sequence ends within the 10-byte
budget. -/
theorem EP.readVarintLoop_allBytes (bs : List Nat) :
    ∀ pos acc (input : List Nat) (cur : Nat) (rest : List Nat),
      varintBytes bs = true →
      input.drop cur = bs ++ rest →
      pos + bs.length ≤ 10 →
      acc < 2 ^ (pos * 7) →
      EP.readVarintLoop (10 - pos) ⟨input, cur⟩ acc pos
        = (.ok ((acc + varintValue bs * 2 ^ (pos * 7)) % 2 ^ 64),
           ⟨input, cur + bs.length⟩) := by
  induction bs with
  | nil =>
    intro pos acc input cur rest hvb
    simp [varintBytes] at hvb
  | cons b bs ih =>
    intro pos acc input cur rest hvb hdrop hlen hacc
    have hks : 10 - pos = (9 - pos) + 1 := by
      simp only [List.length_cons] at hlen
      omega
    cases bs with
    | nil =>
      -- final (single) byte: continuation bit clear
      have hb : b < 128 := by simpa [varintBytes] using hvb
      have hpos9 : pos ≤ 9 := by
        simp only [List.length_cons, List.length_nil] at hlen
        omega
      have hdrop1 : input.drop cur = b :: rest := by simpa using hdrop
      have hstep := EP.readVarintLoop_step (9 - pos) input cur b rest acc pos hdrop1
      rw [hks, hstep]
      have hx127 : b &&& 127 = b := by
        rw [and_127_eq_mod, Nat.mod_eq_of_lt hb]
      have hx128 : b &&& 128 = 0 := and_128_of_lt hb
      rw [hx127, hx128]
      have hpow : (2 : Nat) ^ 64 = 2 ^ (64 - pos * 7) * 2 ^ (pos * 7) := by
        rw [← pow_add]
        congr 1
        omega
      have hshift : b <<< (pos * 7) % 2 ^ 64 = b % 2 ^ (64 - pos * 7) * 2 ^ (pos * 7) := by
        rw [Nat.shiftLeft_eq, hpow, Nat.mul_mod_mul_right]
      rw [hshift, lor_mul_pow_eq_add (b % 2 ^ (64 - pos * 7)) (pos * 7) hacc]
      have hval : (acc + varintValue [b] * 2 ^ (pos * 7)) % 2 ^ 64
          = acc + b % 2 ^ (64 - pos * 7) * 2 ^ (pos * 7) := by
        have hv : varintValue [b] = b % 128 := by simp [varintValue]
        rw [hv]
        have hb2 : b % 128 = b := Nat.mod_eq_of_lt hb
        rw [hb2, add_mul_mod_two_pow b (by omega : pos * 7 ≤ 64) hacc]
      rw [← hval]
      norm_num
    | cons b2 t =>
      -- continuation byte
      have hvb2 : (128 ≤ b ∧ b < 256) ∧ varintBytes (b2 :: t) = true := by
        simpa [varintBytes] using hvb
      have hlen2 : pos + 1 + (b2 :: t).length ≤ 10 := by
        simp only [List.length_cons] at hlen ⊢
        omega
      have hpos8 : pos ≤ 8 := by
        simp only [List.length_cons] at hlen
        omega
      have hdrop1 : input.drop cur = b :: ((b2 :: t) ++ rest) := by simpa using hdrop
      have hstep := EP.readVarintLoop_step (9 - pos) input cur b ((b2 :: t) ++ rest)
        acc pos hdrop1
      rw [hks, hstep]
      have hx127 : b &&& 127 = b % 128 := and_127_eq_mod b
      have hx128 : b &&& 128 = 128 := and_128_of_ge hvb2.1.1 hvb2.1.2
      rw [hx127, hx128]
      have hne0 : ((128 : Nat) == 0) = false := by decide
      have hne10 : (pos + 1 == 10) = false := by
        simp only [beq_eq_false_iff_ne, ne_eq]
        omega
      rw [hne0, hne10]
      simp only [Bool.false_eq_true, if_false]
      have hshift : (b % 128) <<< (pos * 7) % 2 ^ 64 = b % 128 * 2 ^ (pos * 7) := by
        rw [Nat.shiftLeft_eq]
        apply Nat.mod_eq_of_lt
        have h1 : b % 128 * 2 ^ (pos * 7) < 128 * 2 ^ (pos * 7) :=
          (Nat.mul_lt_mul_right (Nat.pos_pow_of_pos _ (by norm_num))).mpr
            (Nat.mod_lt _ (by norm_num))
        have h2 : (128 : Nat) * 2 ^ (pos * 7) = 2 ^ (pos * 7 + 7) := by
          rw [pow_add]; ring
        have h3 : (2 : Nat) ^ (pos * 7 + 7) ≤ 2 ^ 64 :=
          Nat.pow_le_pow_right (by norm_num) (by omega)
        omega
      rw [hshift, lor_mul_pow_eq_add (b % 128) (pos * 7) hacc]
      have hrec : input.drop (cur + 1) = (b2 :: t) ++ rest := by
        rw [← List.tail_drop, hdrop1]
        rfl
      have hacc1 : acc + b % 128 * 2 ^ (pos * 7) < 2 ^ ((pos + 1) * 7) := by
        have h1 : b % 128 < 128 := Nat.mod_lt _ (by norm_num)
        have h2 : (2 : Nat) ^ ((pos + 1) * 7) = 128 * 2 ^ (pos * 7) := by
          rw [show (128 : Nat) = 2 ^ 7 by norm_num, ← pow_add]
          congr 1
          ring
        nlinarith
      have hih := ih (pos + 1) (acc + b % 128 * 2 ^ (pos * 7)) input (cur + 1) rest
        hvb2.2 hrec hlen2 hacc1
      have hks2 : 10 - (pos + 1) = 9 - pos := by omega
      rw [hks2] at hih
      rw [hih]
      have hmul : (2 : Nat) ^ ((pos + 1) * 7) = 2 ^ (pos * 7) * 128 := by
        rw [show (128 : Nat) = 2 ^ 7 by norm_num, ← pow_add]
        congr 1
        ring
      have hval : acc + b % 128 * 2 ^ (pos * 7) + varintValue (b2 :: t) * 2 ^ ((pos + 1) * 7)
          = acc + varintValue (b :: b2 :: t) * 2 ^ (pos * 7) := by
        have hvv : varintValue (b :: b2 :: t) = b % 128 + 128 * varintValue (b2 :: t) := rfl
        rw [hmul, hvv]
        ring
      have hcur : cur + 1 + (b2 :: t).length = cur + (b :: b2 :: t).length := by
        simp only [List.length_cons]
        omega
      rw [hval, hcur]

end TenByteVarint

/-- C10: a varint whose encoding spans exactly 10 bytes with the 10th byte's
continuation bit clear is read successfully by the streaming `read_varint`
(no `Corrupt`, no truncation error), and the returned value is the encoded
integer reduced modulo `2 ^ 64`: payload bits at positions 64 and above are
silently discarded. -/
theorem ten_byte_varint_truncates (bs rest : List Nat)
    (hvb : varintBytes bs = true) (hlen : bs.length = 10) :
    EP.read_varint (DataReader.new (bs ++ rest))
      = (.ok (varintValue bs % 2 ^ 64), ⟨bs ++ rest, 10⟩) := by
  have h := EP.readVarintLoop_allBytes bs 0 0 (bs ++ rest) 0 rest hvb (by simp)
    (by omega) (by norm_num)
  simpa [EP.read_varint, DataReader.new, hlen] using h

/-- Witness for `ten_byte_varint_truncates`: nine `FF` bytes and a final `7F`
encode `2 ^ 70 - 1`, and the loop returns `2 ^ 70 - 1` reduced modulo
`2 ^ 64`. -/
theorem ten_byte_varint_truncates_witness :
    EP.read_varint (DataReader.new
        ([255, 255, 255, 255, 255, 255, 255, 255, 255, 127] ++ []))
      = (.ok (varintValue [255, 255, 255, 255, 255, 255, 255, 255, 255, 127] % 2 ^ 64),
         ⟨[255, 255, 255, 255, 255, 255, 255, 255, 255, 127] ++ [], 10⟩) :=
  ten_byte_varint_truncates [255, 255, 255, 255, 255, 255, 255, 255, 255, 127] []
    (by decide) (by decide)
